import Mathlib

/-!
# Verification of the Spotify catalog collector (`API_spotify_tracks_V2.py`)

A shallow embedding, in Lean 4, of the pure control- and data-flow of the
collector script `src/API_spotify_tracks_V2.py`:

* `_chunked`                — the batching generator;
* `rwrGo` / `request_with_retry` — the retry loop of `_request_with_retry`,
  with network responses supplied as an oracle `Nat → HttpResp` and the
  observable side effects (HTTP attempts, sleeps) recorded as an event trace;
* `fetch_artists_meta`, `fetch_tracks_popularity` — the batch resolvers,
  with the API supplied as a batch → objects oracle;
* `runShard` / `search_albums_by_year` — the sharded album search, with the
  API's successive page responses per shard supplied as lists, and the
  issued HTTP requests (url, params) recorded as a trace;
* `fetch_album_tracks` — the per-album track pagination walker;
* `collect_year_tracks` — the per-(year, market) orchestration, including
  the pandas `drop_duplicates(subset=["track_id"])` dedup and the
  enrichment column construction;
* `mainYearStep` — the per-year merge + write step of `main`.

Python `None` is modelled as `Option.none`; a pandas `NaN` produced by
`pd.to_numeric(..., errors="coerce")` or by a missing `Series.map` key is
likewise modelled as `none`.  Python dicts keyed by strings are modelled as
association lists in insertion order.  Python `set` iteration order is
unspecified, so sets are modelled as deduplicated lists; no proved property
depends on the order chosen.
-/

namespace Spotify

/-! ## `_chunked` (src/API_spotify_tracks_V2.py lines 77-85) -/

/-- The buffer loop of `_chunked`: `go n xs buf` consumes `xs`, appending to
the running buffer `buf` and emitting the buffer each time its length
reaches `n`; a non-empty leftover buffer is emitted at the end. -/
def chunkGo (n : Nat) : List α → List α → List (List α)
  | [], buf => if buf.isEmpty then [] else [buf]
  | x :: xs, buf =>
      let buf' := buf ++ [x]
      if buf'.length = n then buf' :: chunkGo n xs [] else chunkGo n xs buf'

/-- `_chunked(seq, n)`: yield successive buffers of `n` items from `seq`,
with a final short buffer when `seq`'s length is not a multiple of `n`. -/
def _chunked (seq : List α) (n : Nat) : List (List α) :=
  chunkGo n seq []

theorem chunkGo_join (n : Nat) :
    ∀ (xs buf : List α), (chunkGo n xs buf).flatten = buf ++ xs := by
  intro xs
  induction xs with
  | nil =>
      intro buf
      by_cases h : buf.isEmpty
      · simp only [chunkGo, h, if_pos]
        simp [List.isEmpty_iff.mp h]
      · simp [chunkGo, h]
  | cons x xs ih =>
      intro buf
      by_cases h : (buf ++ [x]).length = n
      · simp only [chunkGo, if_pos h]
        simp [ih]
      · simp only [chunkGo, if_neg h]
        simp [ih]

theorem chunkGo_mem (n : Nat) :
    ∀ (xs buf : List α), buf.length < n →
      ∀ b ∈ chunkGo n xs buf, b ≠ [] ∧ b.length ≤ n := by
  intro xs
  induction xs with
  | nil =>
      intro buf hlt b hb
      by_cases h : buf.isEmpty
      · simp [chunkGo, h] at hb
      · simp only [chunkGo, if_neg h, List.mem_singleton] at hb
        subst hb
        exact ⟨fun hc => h (by simp [hc]), Nat.le_of_lt hlt⟩
  | cons x xs ih =>
      intro buf hlt b hb
      by_cases h : (buf ++ [x]).length = n
      · simp only [chunkGo, if_pos h] at hb
        rcases List.mem_cons.mp hb with rfl | hb'
        · exact ⟨by simp, Nat.le_of_eq h⟩
        · exact ih [] (by simpa using Nat.zero_lt_of_lt hlt) b hb'
      · simp only [chunkGo, if_neg h] at hb
        have hlen : (buf ++ [x]).length ≤ n := by
          have hone : buf.length + 1 ≤ n := hlt
          simpa using hone
        exact ih (buf ++ [x]) (Nat.lt_of_le_of_ne hlen h) b hb

/-- C10: for a positive batch size `n`, `_chunked` reassembles to the
original sequence, and every emitted batch is non-empty of length ≤ `n`. -/
theorem chunked_spec (seq : List α) (n : Nat) (hn : 0 < n) :
    (_chunked seq n).flatten = seq ∧
      ∀ b ∈ _chunked seq n, b ≠ [] ∧ b.length ≤ n := by
  constructor
  · simpa using chunkGo_join n seq []
  · intro b hb
    exact chunkGo_mem n seq [] (by simpa using hn) b hb

theorem chunked_spec_witness :
    (_chunked [1, 2, 3, 4, 5] 2).flatten = [1, 2, 3, 4, 5] ∧
      ∀ b ∈ _chunked [1, 2, 3, 4, 5] 2, b ≠ [] ∧ b.length ≤ 2 :=
  chunked_spec [1, 2, 3, 4, 5] 2 (by decide)

/-! ## `_request_with_retry` (src/API_spotify_tracks_V2.py lines 50-74)

The network is an oracle `responses : Nat → HttpResp` giving the response
the server would return to the `i`-th HTTP attempt (0-based).  The loop's
observable behaviour is recorded as a trace of events: `.attempt i` when
the `i`-th HTTP request is issued, `.sleeps w` when `time.sleep(w)` runs.
Sleep durations are exact integers in the source (`int(Retry-After)`,
`1.0 + attempt`), so they are modelled as `Nat`.  `raise_for_status` is
modelled as `Except.error status` for `status ≥ 400`, `Except.ok` below. -/

/-- An HTTP response: status code plus the optional `Retry-After` header
(already parsed to an integer number of seconds). -/
structure HttpResp where
  status : Nat
  retryAfter : Option Nat
deriving Repr, DecidableEq

/-- Observable events of the retry loop. -/
inductive FetchEv where
  | attempt (i : Nat)
  | sleeps (secs : Nat)
deriving Repr, DecidableEq

/-- `wait = int(r.headers.get("Retry-After", "1"))`. -/
def retryAfterWait (r : HttpResp) : Nat := r.retryAfter.getD 1

/-- `r.raise_for_status()` then `return r` (`requests` raises exactly for
4xx/5xx status codes). -/
def raiseForStatus (r : HttpResp) : Except Nat HttpResp :=
  if 400 ≤ r.status ∧ r.status < 600 then .error r.status else .ok r

/-- The `for attempt in range(max_retries)` loop.  `total` is `max_retries`;
the remaining-iterations counter drives the recursion, so the current
attempt index is `total - remaining`.  When the loop falls through (every
attempt hit a retryable status), the epilogue re-raises on the last
response, issuing no further request. -/
def rwrGo (responses : Nat → HttpResp) (total : Nat) :
    Nat → List FetchEv × Except Nat HttpResp
  | 0 => ([], raiseForStatus (responses (total - 1)))
  | remaining + 1 =>
      let i := total - (remaining + 1)
      let r := responses i
      if r.status = 429 then
        let rest := rwrGo responses total remaining
        (.attempt i :: .sleeps (retryAfterWait r) :: rest.1, rest.2)
      else if 500 ≤ r.status ∧ r.status < 600 then
        let rest := rwrGo responses total remaining
        (.attempt i :: .sleeps (1 + i) :: rest.1, rest.2)
      else
        ([.attempt i], raiseForStatus r)

/-- `_request_with_retry` with the network abstracted; the source default
for `max_retries` is 5. -/
def request_with_retry (responses : Nat → HttpResp) (maxRetries : Nat) :
    List FetchEv × Except Nat HttpResp :=
  rwrGo responses maxRetries maxRetries

/-- Number of HTTP attempts recorded in a trace. -/
def attemptCount (evs : List FetchEv) : Nat :=
  evs.countP (fun e => match e with | .attempt _ => true | .sleeps _ => false)

/-- A status the loop retries on: 429 or 5xx. -/
def retryableStatus (s : Nat) : Prop := s = 429 ∨ (500 ≤ s ∧ s < 600)

theorem rwrGo_attemptCount (responses : Nat → HttpResp) (total : Nat) :
    ∀ remaining, attemptCount (rwrGo responses total remaining).1 ≤ remaining := by
  intro remaining
  induction remaining with
  | zero => simp [rwrGo, attemptCount]
  | succ k ih =>
      by_cases h429 : (responses (total - (k + 1))).status = 429
      · simp only [rwrGo, if_pos h429]
        simpa [attemptCount] using ih
      · by_cases h5xx : 500 ≤ (responses (total - (k + 1))).status ∧
            (responses (total - (k + 1))).status < 600
        · simp only [rwrGo, if_neg h429, if_pos h5xx]
          simpa [attemptCount] using ih
        · simp only [rwrGo, if_neg h429, if_neg h5xx]
          simp [attemptCount]

theorem rwrGo_sleep_after_429 (responses : Nat → HttpResp) (total : Nat) :
    ∀ remaining j i,
      (rwrGo responses total remaining).1.get? j = some (.attempt i) →
      (responses i).status = 429 →
      (rwrGo responses total remaining).1.get? (j + 1) =
        some (.sleeps (retryAfterWait (responses i))) := by
  intro remaining
  induction remaining with
  | zero => intro j i hj _; simp [rwrGo] at hj
  | succ k ih =>
      intro j i hj hi
      by_cases h429 : (responses (total - (k + 1))).status = 429
      · simp only [rwrGo, if_pos h429] at hj ⊢
        match j, hj with
        | 0, hj =>
            have heq : total - (k + 1) = i := by
              simpa using (FetchEv.attempt.injEq _ _).mp (Option.some.injEq _ _ |>.mp hj)
            subst heq
            rfl
        | 1, hj => simp at hj
        | (j' + 2), hj =>
            have := ih j' i (by simpa using hj) hi
            simpa using this
      · by_cases h5xx : 500 ≤ (responses (total - (k + 1))).status ∧
            (responses (total - (k + 1))).status < 600
        · simp only [rwrGo, if_neg h429, if_pos h5xx] at hj ⊢
          match j, hj with
          | 0, hj =>
              have hieq : total - (k + 1) = i := by
                simpa using (FetchEv.attempt.injEq _ _).mp (Option.some.injEq _ _ |>.mp hj)
              exact absurd (hieq ▸ hi) h429
          | 1, hj => simp at hj
          | (j' + 2), hj =>
              have := ih j' i (by simpa using hj) hi
              simpa using this
        · simp only [rwrGo, if_neg h429, if_neg h5xx] at hj
          match j, hj with
          | 0, hj =>
              have hieq : total - (k + 1) = i := by
                simpa using (FetchEv.attempt.injEq _ _).mp (Option.some.injEq _ _ |>.mp hj)
              exact absurd (hieq ▸ hi) h429

theorem rwrGo_exhaust_error (responses : Nat → HttpResp) (total : Nat)
    (hall : ∀ i < total, retryableStatus (responses i).status) (hpos : 0 < total) :
    ∀ remaining,
      (rwrGo responses total remaining).2 = .error (responses (total - 1)).status := by
  intro remaining
  induction remaining with
  | zero =>
      have hlast := hall (total - 1) (Nat.sub_lt hpos Nat.one_pos)
      have h400 : 400 ≤ (responses (total - 1)).status ∧
          (responses (total - 1)).status < 600 := by
        rcases hlast with h | h
        · omega
        · omega
      simp [rwrGo, raiseForStatus, h400]
  | succ k ih =>
      have hi : total - (k + 1) < total := by omega
      have hcur := hall (total - (k + 1)) hi
      by_cases h429 : (responses (total - (k + 1))).status = 429
      · simp only [rwrGo, if_pos h429]
        exact ih
      · have h5xx : 500 ≤ (responses (total - (k + 1))).status ∧
            (responses (total - (k + 1))).status < 600 := by
          rcases hcur with h | h
          · exact absurd h h429
          · exact h
        simp only [rwrGo, if_neg h429, if_pos h5xx]
        exact ih

/-- C2: the fetcher issues at most `maxRetries` HTTP attempts (default 5 in
the source); every attempt answered with a 429 is immediately followed in
the event trace by a sleep of the `Retry-After` duration (1 second when the
header is absent), hence before any further attempt; and when every one of
the `maxRetries` attempts hits a retryable status (429 or 5xx), the call
surfaces `Except.error` with the last status rather than returning a
response. -/
theorem request_with_retry_spec (responses : Nat → HttpResp) (maxRetries : Nat)
    (hpos : 0 < maxRetries) :
    attemptCount (request_with_retry responses maxRetries).1 ≤ maxRetries ∧
    (∀ j i, (request_with_retry responses maxRetries).1.get? j = some (.attempt i) →
      (responses i).status = 429 →
      (request_with_retry responses maxRetries).1.get? (j + 1) =
        some (.sleeps (retryAfterWait (responses i)))) ∧
    ((∀ i < maxRetries, retryableStatus (responses i).status) →
      (request_with_retry responses maxRetries).2 =
        .error (responses (maxRetries - 1)).status) := by
  refine ⟨rwrGo_attemptCount responses maxRetries maxRetries, ?_, ?_⟩
  · intro j i hj hi
    exact rwrGo_sleep_after_429 responses maxRetries maxRetries j i hj hi
  · intro hall
    exact rwrGo_exhaust_error responses maxRetries hall hpos maxRetries

/-- A network that always answers 429 with `Retry-After: 7`. -/
def always429 : Nat → HttpResp := fun _ => ⟨429, some 7⟩

theorem request_with_retry_spec_witness :
    attemptCount (request_with_retry always429 5).1 ≤ 5 ∧
    (request_with_retry always429 5).1.get? 1 = some (.sleeps 7) ∧
    (request_with_retry always429 5).2 = .error 429 := by
  have h := request_with_retry_spec always429 5 (by decide)
  refine ⟨h.1, ?_, ?_⟩
  · have := h.2.1 0 0 (by decide) (by decide)
    simpa using this
  · have := h.2.2 (by intro i _; exact Or.inl rfl)
    simpa [always429] using this

/-! ## Batch resolvers (src/API_spotify_tracks_V2.py lines 107-150)

`fetch_artists_meta` and `fetch_tracks_popularity` are modelled with the
HTTP+JSON layer abstracted into an oracle mapping a batch of identifiers
(the `ids` query parameter) to the list of objects the endpoint returns;
`None` entries model JSON `null`s in the response arrays.  The Python
`set` comprehensions `{x for x in ids if x}` are modelled as
filter-then-dedup (set iteration order is unspecified; no property proved
here depends on it). -/

/-- `{x for x in xs if x}` on strings: drop falsy (empty) strings, keep
each remaining string once. -/
def pyStrSet (xs : List String) : List String :=
  (xs.filter (fun x => x ≠ "")).dedup

/-- `{x for x in xs if x}` on optional strings (a pandas column's
`.tolist()` may contain `None`). -/
def pyOptStrSet (xs : List (Option String)) : List String :=
  (xs.filterMap (fun o => o.bind (fun s => if s = "" then none else some s))).dedup

/-- Python `k in d` on an insertion-ordered assoc list. -/
def keyMem (m : List (String × β)) (k : String) : Bool :=
  m.any (fun q => q.1 == k)

/-- Python `d.get(k)` on an insertion-ordered assoc list. -/
def lookupKey (m : List (String × β)) (k : String) : Option β :=
  (m.find? (fun q => q.1 == k)).map Prod.snd

/-- Python dict assignment `m[k] = v` on an insertion-ordered assoc list:
overwrite in place when the key exists, append otherwise. -/
def assocSet (m : List (String × β)) (k : String) (v : β) : List (String × β) :=
  if keyMem m k then
    m.map (fun p => if p.1 = k then (k, v) else p)
  else m ++ [(k, v)]

/-- An artist object of a `/v1/artists` response, with the nested
`(a.get("followers") or {}).get("total")` read flattened into one field. -/
structure ArtistObjFull where
  id : String
  followers : Option Int
  genres : List String
  name : Option String
  popularity : Option Int
deriving Repr, DecidableEq

/-- The value stored per artist id by `fetch_artists_meta`. -/
structure ArtistMeta where
  followers : Option Int
  genres : List String
  name : Option String
  popularity : Option Int
deriving Repr, DecidableEq

/-- One iteration of `for a in (data.get("artists") or [])`:
falsy objects are skipped, others stored under `a["id"]`. -/
def artistStep (m : List (String × ArtistMeta)) (oa : Option ArtistObjFull) :
    List (String × ArtistMeta) :=
  match oa with
  | none => m
  | some a => assocSet m a.id ⟨a.followers, a.genres, a.name, a.popularity⟩

/-- `fetch_artists_meta(tok, artist_ids)`: dedup the truthy ids, batch
them 50 at a time, one API call per batch, merge all responses into one
id → metadata mapping. -/
def fetch_artists_meta (api : List String → List (Option ArtistObjFull))
    (artist_ids : List String) : List (String × ArtistMeta) :=
  let unique := pyStrSet artist_ids
  (_chunked unique 50).foldl
    (fun meta batch => (api batch).foldl artistStep meta) []

/-- A track object of a `/v1/tracks` response (only the fields read). -/
structure TrackPopObj where
  id : Option String
  popularity : Option Int
deriving Repr, DecidableEq

/-- One iteration of `for tr in (data.get("tracks") or [])`:
skip falsy objects and objects with `id is None`. -/
def trackStep (m : List (String × Option Int)) (ot : Option TrackPopObj) :
    List (String × Option Int) :=
  match ot with
  | none => m
  | some tr =>
      match tr.id with
      | none => m
      | some tid => assocSet m tid tr.popularity

/-- `fetch_tracks_popularity(tok, track_ids)`. -/
def fetch_tracks_popularity (api : List String → List (Option TrackPopObj))
    (track_ids : List (Option String)) : List (String × Option Int) :=
  let unique := pyOptStrSet track_ids
  (_chunked unique 50).foldl
    (fun pop batch => (api batch).foldl trackStep pop) []

theorem assocSet_mem (m : List (String × β)) (k : String) (v : β) :
    ∀ p ∈ assocSet m k v, p ∈ m ∨ p.1 = k := by
  intro p hp
  unfold assocSet at hp
  by_cases h : keyMem m k
  · rw [if_pos h] at hp
    rcases List.mem_map.mp hp with ⟨q, hq, hqe⟩
    by_cases hk : q.1 = k
    · right; rw [← hqe]; simp [hk]
    · left; rw [← hqe]; simpa [hk] using hq
  · rw [if_neg h] at hp
    rcases List.mem_append.mp hp with hm | hk
    · exact Or.inl hm
    · right; rw [List.mem_singleton.mp hk]

theorem foldl_artistStep_keys (objs : List (Option ArtistObjFull)) :
    ∀ (m : List (String × ArtistMeta)), ∀ p ∈ objs.foldl artistStep m,
      p ∈ m ∨ ∃ a, some a ∈ objs ∧ p.1 = a.id := by
  induction objs with
  | nil => intro m p hp; exact Or.inl hp
  | cons oa objs ih =>
      intro m p hp
      rcases ih (artistStep m oa) p hp with hstep | ⟨a, ha, hid⟩
      · match oa with
        | none => exact Or.inl hstep
        | some a =>
            rcases assocSet_mem m a.id _ p hstep with hm | hid
            · exact Or.inl hm
            · exact Or.inr ⟨a, by simp, hid⟩
      · exact Or.inr ⟨a, List.mem_cons_of_mem _ ha, hid⟩

theorem foldl_trackStep_keys (objs : List (Option TrackPopObj)) :
    ∀ (m : List (String × Option Int)), ∀ p ∈ objs.foldl trackStep m,
      p ∈ m ∨ ∃ t tid, some t ∈ objs ∧ t.id = some tid ∧ p.1 = tid := by
  induction objs with
  | nil => intro m p hp; exact Or.inl hp
  | cons ot objs ih =>
      intro m p hp
      rcases ih (trackStep m ot) p hp with hstep | ⟨t, tid, ht, htid, hid⟩
      · match ot with
        | none => exact Or.inl hstep
        | some t =>
            match h : t.id with
            | none => simp only [trackStep, h] at hstep; exact Or.inl hstep
            | some tid =>
                simp only [trackStep, h] at hstep
                rcases assocSet_mem m tid _ p hstep with hm | hid
                · exact Or.inl hm
                · exact Or.inr ⟨t, tid, by simp, h, hid⟩
      · exact Or.inr ⟨t, tid, List.mem_cons_of_mem _ ht, htid, hid⟩

theorem fetch_artists_meta_keys (api : List String → List (Option ArtistObjFull))
    (artist_ids : List String)
    (hapi : ∀ b a, some a ∈ api b → a.id ∈ b) :
    ∀ p ∈ fetch_artists_meta api artist_ids, p.1 ∈ artist_ids := by
  intro p hp
  have hmain : ∀ (chunks : List (List String)) (m : List (String × ArtistMeta)),
      p ∈ chunks.foldl (fun meta batch => (api batch).foldl artistStep meta) m →
      p ∈ m ∨ ∃ b ∈ chunks, p.1 ∈ b := by
    intro chunks
    induction chunks with
    | nil => intro m hm; exact Or.inl hm
    | cons b chunks ih =>
        intro m hm
        rcases ih _ hm with hin | ⟨b', hb', hpb'⟩
        · rcases foldl_artistStep_keys (api b) m p hin with hm0 | ⟨a, ha, hid⟩
          · exact Or.inl hm0
          · exact Or.inr ⟨b, by simp, hid ▸ hapi b a ha⟩
        · exact Or.inr ⟨b', List.mem_cons_of_mem _ hb', hpb'⟩
  rcases hmain (_chunked (pyStrSet artist_ids) 50) [] hp with hfalse | ⟨b, hb, hpb⟩
  · simp at hfalse
  · have hflat : p.1 ∈ (_chunked (pyStrSet artist_ids) 50).flatten :=
      List.mem_flatten.mpr ⟨b, hb, hpb⟩
    unfold _chunked at hflat
    rw [chunkGo_join 50 (pyStrSet artist_ids) []] at hflat
    simp only [List.nil_append] at hflat
    have := List.mem_dedup.mp hflat
    exact (List.mem_filter.mp this).1

theorem fetch_tracks_popularity_keys (api : List String → List (Option TrackPopObj))
    (track_ids : List (Option String))
    (hapi : ∀ b t, some t ∈ api b → ∀ tid, t.id = some tid → tid ∈ b) :
    ∀ p ∈ fetch_tracks_popularity api track_ids, some p.1 ∈ track_ids := by
  intro p hp
  have hmain : ∀ (chunks : List (List String)) (m : List (String × Option Int)),
      p ∈ chunks.foldl (fun pop batch => (api batch).foldl trackStep pop) m →
      p ∈ m ∨ ∃ b ∈ chunks, p.1 ∈ b := by
    intro chunks
    induction chunks with
    | nil => intro m hm; exact Or.inl hm
    | cons b chunks ih =>
        intro m hm
        rcases ih _ hm with hin | ⟨b', hb', hpb'⟩
        · rcases foldl_trackStep_keys (api b) m p hin with hm0 | ⟨t, tid, ht, htid, hid⟩
          · exact Or.inl hm0
          · exact Or.inr ⟨b, by simp, hid ▸ hapi b t ht tid htid⟩
        · exact Or.inr ⟨b', List.mem_cons_of_mem _ hb', hpb'⟩
  rcases hmain (_chunked (pyOptStrSet track_ids) 50) [] hp with hfalse | ⟨b, hb, hpb⟩
  · simp at hfalse
  · have hflat : p.1 ∈ (_chunked (pyOptStrSet track_ids) 50).flatten :=
      List.mem_flatten.mpr ⟨b, hb, hpb⟩
    unfold _chunked at hflat
    rw [chunkGo_join 50 (pyOptStrSet track_ids) []] at hflat
    simp only [List.nil_append] at hflat
    have hmemfm := List.mem_dedup.mp hflat
    rcases List.mem_filterMap.mp hmemfm with ⟨o, ho, hbind⟩
    match o, hbind with
    | some s, hbind =>
        by_cases hs : s = ""
        · simp [hs] at hbind
        · have hps : s = p.1 := by simpa [hs] using hbind
          exact hps ▸ ho

/-- C3: both batch resolvers deduplicate their input identifiers before
batching (the batched list has no duplicate and only elements of the
input), never issue a batch of more than 50 identifiers, and — assuming
the API only describes identifiers it was asked about — every key of the
returned mapping comes from the input identifier collection. -/
theorem batch_resolver_spec (api : List String → List (Option ArtistObjFull))
    (tapi : List String → List (Option TrackPopObj))
    (artist_ids : List String) (track_ids : List (Option String))
    (hapi : ∀ b a, some a ∈ api b → a.id ∈ b)
    (htapi : ∀ b t, some t ∈ tapi b → ∀ tid, t.id = some tid → tid ∈ b) :
    (pyStrSet artist_ids).Nodup ∧
    (∀ x ∈ pyStrSet artist_ids, x ∈ artist_ids) ∧
    (∀ b ∈ _chunked (pyStrSet artist_ids) 50, b.length ≤ 50) ∧
    (∀ p ∈ fetch_artists_meta api artist_ids, p.1 ∈ artist_ids) ∧
    (pyOptStrSet track_ids).Nodup ∧
    (∀ b ∈ _chunked (pyOptStrSet track_ids) 50, b.length ≤ 50) ∧
    (∀ p ∈ fetch_tracks_popularity tapi track_ids, some p.1 ∈ track_ids) := by
  refine ⟨List.nodup_dedup _, ?_, ?_, fetch_artists_meta_keys api artist_ids hapi,
    List.nodup_dedup _, ?_, fetch_tracks_popularity_keys tapi track_ids htapi⟩
  · intro x hx
    exact (List.mem_filter.mp (List.mem_dedup.mp hx)).1
  · intro b hb
    exact ((chunked_spec (pyStrSet artist_ids) 50 (by norm_num)).2 b hb).2
  · intro b hb
    exact ((chunked_spec (pyOptStrSet track_ids) 50 (by norm_num)).2 b hb).2

/-- A toy artists endpoint knowing only identifier `"a1"`. -/
def toyArtistsApi : List String → List (Option ArtistObjFull) :=
  fun b => if "a1" ∈ b then [some ⟨"a1", some 10, ["mpb"], some "Alice", some 7⟩] else []

/-- A toy tracks endpoint knowing only identifier `"t1"`. -/
def toyTracksApi : List String → List (Option TrackPopObj) :=
  fun b => if "t1" ∈ b then [some ⟨some "t1", some 55⟩] else []

theorem batch_resolver_spec_witness :
    (pyStrSet ["a1", "a1", "", "a2"]).Nodup ∧
    (∀ x ∈ pyStrSet ["a1", "a1", "", "a2"], x ∈ ["a1", "a1", "", "a2"]) ∧
    (∀ b ∈ _chunked (pyStrSet ["a1", "a1", "", "a2"]) 50, b.length ≤ 50) ∧
    (∀ p ∈ fetch_artists_meta toyArtistsApi ["a1", "a1", "", "a2"],
      p.1 ∈ ["a1", "a1", "", "a2"]) ∧
    (pyOptStrSet [some "t1", none, some "t1"]).Nodup ∧
    (∀ b ∈ _chunked (pyOptStrSet [some "t1", none, some "t1"]) 50, b.length ≤ 50) ∧
    (∀ p ∈ fetch_tracks_popularity toyTracksApi [some "t1", none, some "t1"],
      some p.1 ∈ [some "t1", none, some "t1"]) := by
  refine batch_resolver_spec toyArtistsApi toyTracksApi
    ["a1", "a1", "", "a2"] [some "t1", none, some "t1"] ?_ ?_
  · intro b a ha
    unfold toyArtistsApi at ha
    by_cases hmem : "a1" ∈ b
    · rw [if_pos hmem] at ha
      have : a = ⟨"a1", some 10, ["mpb"], some "Alice", some 7⟩ := by
        simpa using ha
      rw [this]
      exact hmem
    · rw [if_neg hmem] at ha
      simp at ha
  · intro b t ht tid htid
    unfold toyTracksApi at ht
    by_cases hmem : "t1" ∈ b
    · rw [if_pos hmem] at ht
      have : t = ⟨some "t1", some 55⟩ := by simpa using ht
      rw [this] at htid
      have : tid = "t1" := by simpa using htid.symm
      rw [this]
      exact hmem
    · rw [if_neg hmem] at ht
      simp at ht

/-! ## `search_albums_by_year` (src/API_spotify_tracks_V2.py lines 154-219)

The search endpoint is abstracted per shard: `api shard` is the sequence of
responses the endpoint returns to the successive page requests of that
shard's `while next_url` loop (`none` models a falsy `albums` block, which
breaks the loop).  Each issued request is recorded as a `Request` holding
the url and the `params` argument (`none` after the first page, mirroring
`params = None`).  The album index is an insertion-ordered association
list, mirroring the Python dict `albums_index`. -/

/-- One element of an album's `artists` array (falsy elements possible). -/
structure ArtistRef where
  name : Option String
  id : Option String
deriving Repr, DecidableEq

/-- An album item of a search response (only the fields the script reads). -/
structure Album where
  id : Option String
  name : Option String
  albumType : Option String
  releaseDate : Option String
  artists : List (Option ArtistRef)
deriving Repr, DecidableEq

/-- The payload stored in `albums_index[album_id]`. -/
structure AlbumPayload where
  album_id : String
  album_name : Option String
  album_type : Option String
  release_date : String
  artists : List (Option ArtistRef)
deriving Repr, DecidableEq

/-- The `albums` block of a search response. -/
structure SearchBlock where
  items : List Album
  next : Option String
deriving Repr, DecidableEq

/-- An issued HTTP request: url plus the `params` argument (query
parameters as key/value pairs; `none` mirrors `params=None`). -/
structure Request where
  url : String
  params : Option (List (String × String))
deriving Repr, DecidableEq

abbrev AlbumIndex := List (String × AlbumPayload)

def searchBaseUrl : String := "https://api.spotify.com/v1/search"

/-- The first-page query parameters of a shard. -/
def initSearchParams (year : Nat) (shard market : String) (limit : Nat) :
    List (String × String) :=
  [("q", "year:" ++ toString year ++ " artist:" ++ shard),
   ("type", "album"), ("market", market),
   ("limit", toString limit), ("offset", "0")]

/-- `s.startswith(p)` implemented over the character list (so that it
evaluates by kernel reduction on concrete inputs). -/
def strStartsWith (s p : String) : Bool :=
  p.toList.isPrefixOf s.toList

/-- One iteration of `for alb in block.get("items", [])`: post-filter on
the release-date prefix, skip falsy ids, first occurrence wins. -/
def albumStep (year : Nat) (acc : AlbumIndex) (alb : Album) : AlbumIndex :=
  let rel := alb.releaseDate.getD ""
  if ¬ strStartsWith rel (toString year) then acc
  else
    match alb.id with
    | none => acc
    | some aid =>
        if aid = "" then acc
        else if keyMem acc aid then acc
        else acc ++ [(aid, ⟨aid, alb.name, alb.albumType, rel, alb.artists⟩)]

/-- The whole `for alb in …` loop over one page's items. -/
def processItems (year : Nat) (acc : AlbumIndex) (items : List Album) : AlbumIndex :=
  items.foldl (albumStep year) acc

/-- The items of one page that survive the post-filter and the id checks,
paired with the payload the script would build for them. -/
def validItems (year : Nat) (items : List Album) : List (String × AlbumPayload) :=
  items.filterMap (fun alb =>
    let rel := alb.releaseDate.getD ""
    if strStartsWith rel (toString year) then
      match alb.id with
      | none => none
      | some aid =>
          if aid = "" then none
          else some (aid, ⟨aid, alb.name, alb.albumType, rel, alb.artists⟩)
    else none)

/-- Insert a keyed payload only when the key is absent (dict semantics of
`if album_id in albums_index: continue`). -/
def insertAbsent (acc : AlbumIndex) (p : String × AlbumPayload) : AlbumIndex :=
  if keyMem acc p.1 then acc else acc ++ [p]

/-- `if max_pages_per_shard and pages >= max_pages_per_shard` — a cap of
`0` is falsy in Python and disables the bound. -/
def capHit (cap : Option Nat) (pages : Nat) : Bool :=
  match cap with
  | none => false
  | some k => decide (k ≠ 0) && decide (k ≤ pages)

/-- Result of one shard's pagination loop: the updated album index, the
requests issued, and the stream of surviving items in page-then-item
order (used to state the dedup property). -/
structure ShardOut where
  index : AlbumIndex
  trace : List Request
  stream : List (String × AlbumPayload)
deriving Repr

/-- The `while next_url` loop of one shard.  The response list supplies
the endpoint's answers to successive requests; the loop stops when the
responses run out, the `albums` block is falsy, the page cap is hit, or
the block carries no `next` cursor. -/
def runShard (year : Nat) (cap : Option Nat) :
    List (Option SearchBlock) → String → Option (List (String × String)) →
      Nat → AlbumIndex → ShardOut
  | [], _, _, _, idx => ⟨idx, [], []⟩
  | resp :: rest, url, params, pages, idx =>
      let req : Request := ⟨url, params⟩
      match resp with
      | none => ⟨idx, [req], []⟩
      | some block =>
          let idx' := processItems year idx block.items
          let str := validItems year block.items
          let pages' := pages + 1
          if capHit cap pages' then ⟨idx', [req], str⟩
          else
            match block.next with
            | none => ⟨idx', [req], str⟩
            | some u =>
                let cont := runShard year cap rest u none pages' idx'
                ⟨cont.index, req :: cont.trace, str ++ cont.stream⟩

/-- Aggregate result of `search_albums_by_year`. -/
structure SearchOut where
  index : AlbumIndex
  trace : List Request
  stream : List (String × AlbumPayload)
deriving Repr

/-- The `for shard in shards` loop. -/
def searchGo (year : Nat) (market : String) (limit : Nat) (cap : Option Nat)
    (api : String → List (Option SearchBlock)) :
    List String → SearchOut → SearchOut
  | [], acc => acc
  | shard :: rest, acc =>
      let s := runShard year cap (api shard) searchBaseUrl
        (some (initSearchParams year shard market limit)) 0 acc.index
      searchGo year market limit cap api rest
        ⟨s.index, acc.trace ++ s.trace, acc.stream ++ s.stream⟩

/-- `search_albums_by_year(tok, year, market, limit, shards,
max_pages_per_shard)` with the endpoint abstracted. -/
def search_albums_by_year (year : Nat) (market : String) (limit : Nat)
    (shards : List String) (cap : Option Nat)
    (api : String → List (Option SearchBlock)) : SearchOut :=
  searchGo year market limit cap api shards ⟨[], [], []⟩

theorem albumStep_eq_insertAbsent (year : Nat) (acc : AlbumIndex) (alb : Album) :
    albumStep year acc alb =
      (validItems year [alb]).foldl insertAbsent acc := by
  unfold albumStep validItems
  by_cases hrel : strStartsWith (alb.releaseDate.getD "") (toString year)
  · match hidv : alb.id with
    | none => simp [hrel, hidv]
    | some aid =>
        by_cases hid : aid = ""
        · simp [hrel, hidv, hid]
        · simp [hrel, hidv, hid, insertAbsent]
  · simp [hrel]

theorem processItems_eq_foldl (year : Nat) (items : List Album) :
    ∀ acc, processItems year acc items =
      (validItems year items).foldl insertAbsent acc := by
  induction items with
  | nil => intro acc; simp [processItems, validItems]
  | cons alb items ih =>
      intro acc
      have hstep := albumStep_eq_insertAbsent year acc alb
      have hv : validItems year (alb :: items) =
          validItems year [alb] ++ validItems year items := by
        unfold validItems
        rw [show alb :: items = [alb] ++ items from rfl, List.filterMap_append]
      rw [hv, List.foldl_append, ← hstep, ← ih (albumStep year acc alb)]
      simp [processItems]

theorem runShard_index_eq (year : Nat) (cap : Option Nat) :
    ∀ (resps : List (Option SearchBlock)) url params pages idx,
      (runShard year cap resps url params pages idx).index =
        (runShard year cap resps url params pages idx).stream.foldl insertAbsent idx := by
  intro resps
  induction resps with
  | nil => intro url params pages idx; simp [runShard]
  | cons resp rest ih =>
      intro url params pages idx
      match resp with
      | none => simp [runShard]
      | some block =>
          by_cases hcap : capHit cap (pages + 1)
          · simp only [runShard, hcap, if_pos]
            exact processItems_eq_foldl year block.items idx
          · match hnext : block.next with
            | none =>
                simp only [runShard, hcap, if_neg, Bool.not_eq_true, hnext]
                exact processItems_eq_foldl year block.items idx
            | some u =>
                simp only [runShard, hcap, if_neg, Bool.not_eq_true, hnext,
                  List.foldl_append]
                rw [ih u none (pages + 1) (processItems year idx block.items)]
                rw [processItems_eq_foldl year block.items idx]

theorem keyMem_iff (k : String) (m : List (String × β)) :
    keyMem m k = true ↔ ∃ q ∈ m, q.1 = k := by
  simp [keyMem, List.any_eq_true]

theorem keyMem_eq_isSome_find? (k : String) (m : List (String × β)) :
    keyMem m k = (m.find? (fun q => q.1 == k)).isSome := by
  induction m with
  | nil => simp [keyMem]
  | cons q m ih =>
      by_cases h : (q.1 == k)
      · simp [keyMem, List.find?_cons_of_pos _ h, h]
      · have hfalse : (q.1 == k) = false := by
          cases hc : (q.1 == k)
          · rfl
          · exact absurd hc h
        rw [List.find?_cons_of_neg _ (by simp [hfalse])]
        rw [← ih]
        simp [keyMem, hfalse]

theorem foldl_insertAbsent_find? (k : String) :
    ∀ (l : List (String × AlbumPayload)) (idx : AlbumIndex),
      (l.foldl insertAbsent idx).find? (fun q => q.1 == k) =
        (idx.find? (fun q => q.1 == k)).or (l.find? (fun p => p.1 == k)) := by
  intro l
  induction l with
  | nil => intro idx; simp
  | cons p l ih =>
      intro idx
      rw [List.foldl_cons, ih (insertAbsent idx p)]
      unfold insertAbsent
      by_cases hm : keyMem idx p.1
      · rw [if_pos hm]
        by_cases hpk : (p.1 == k)
        · have hkeq : p.1 = k := beq_iff_eq.mp hpk
          have hsome : (idx.find? (fun q => q.1 == k)).isSome := by
            rw [← keyMem_eq_isSome_find?]
            exact (keyMem_iff k idx).mpr (by
              rcases (keyMem_iff p.1 idx).mp hm with ⟨q, hq, hq1⟩
              exact ⟨q, hq, hq1.trans hkeq⟩)
          obtain ⟨v, hf⟩ := Option.isSome_iff_exists.mp hsome
          rw [hf]
          simp
        · have hfalse : (p.1 == k) = false := by
            cases hc : (p.1 == k)
            · rfl
            · exact absurd hc hpk
          rw [List.find?_cons_of_neg _ (by simp [hfalse])]
      · rw [if_neg hm, List.find?_append, Option.or_assoc]
        congr 1
        by_cases hpk : (p.1 == k)
        · simp [List.find?, hpk]
        · have hfalse : (p.1 == k) = false := by
            cases hc : (p.1 == k)
            · rfl
            · exact absurd hc hpk
          simp [List.find?, hfalse]

theorem foldl_insertAbsent_mem :
    ∀ (l : List (String × AlbumPayload)) (idx : AlbumIndex),
      ∀ q ∈ l.foldl insertAbsent idx, q ∈ idx ∨ q ∈ l := by
  intro l
  induction l with
  | nil => intro idx q hq; exact Or.inl hq
  | cons p l ih =>
      intro idx q hq
      rcases ih (insertAbsent idx p) q hq with hin | hl
      · unfold insertAbsent at hin
        by_cases hps : keyMem idx p.1
        · rw [if_pos hps] at hin; exact Or.inl hin
        · rw [if_neg hps] at hin
          rcases List.mem_append.mp hin with hidx | hp
          · exact Or.inl hidx
          · exact Or.inr (List.mem_cons.mpr (Or.inl (List.mem_singleton.mp hp)))
      · exact Or.inr (List.mem_cons_of_mem _ hl)

theorem foldl_insertAbsent_nodup :
    ∀ (l : List (String × AlbumPayload)) (idx : AlbumIndex),
      (idx.map Prod.fst).Nodup → ((l.foldl insertAbsent idx).map Prod.fst).Nodup := by
  intro l
  induction l with
  | nil => intro idx h; exact h
  | cons p l ih =>
      intro idx h
      refine ih (insertAbsent idx p) ?_
      unfold insertAbsent
      by_cases hps : keyMem idx p.1
      · rw [if_pos hps]; exact h
      · rw [if_neg hps]
        rw [List.map_append]
        refine List.Nodup.append h (by simp) ?_
        intro a ha hb
        rcases List.mem_map.mp ha with ⟨q, hq, hqa⟩
        have hap : a = p.1 := by simpa using hb
        exact hps ((keyMem_iff p.1 idx).mpr ⟨q, hq, hqa.trans hap⟩)

theorem validItems_startsWith (year : Nat) (items : List Album) :
    ∀ p ∈ validItems year items,
      strStartsWith p.2.release_date (toString year) = true := by
  intro p hp
  rcases List.mem_filterMap.mp hp with ⟨alb, _, hf⟩
  by_cases hrel : strStartsWith (alb.releaseDate.getD "") (toString year)
  · match halb : alb.id with
    | none => simp [hrel, halb] at hf
    | some aid =>
        by_cases hid : aid = ""
        · simp [hrel, halb, hid] at hf
        · simp only [hrel, if_pos, halb, hid, if_neg, not_false_iff] at hf
          have := (Option.some.injEq _ _).mp hf
          rw [← this]
          exact hrel
  · simp [hrel] at hf

theorem runShard_stream_valid (year : Nat) (cap : Option Nat) :
    ∀ (resps : List (Option SearchBlock)) url params pages idx,
      ∀ p ∈ (runShard year cap resps url params pages idx).stream,
        strStartsWith p.2.release_date (toString year) = true := by
  intro resps
  induction resps with
  | nil => intro url params pages idx p hp; simp [runShard] at hp
  | cons resp rest ih =>
      intro url params pages idx p hp
      match resp with
      | none => simp [runShard] at hp
      | some block =>
          by_cases hcap : capHit cap (pages + 1)
          · simp only [runShard, hcap, if_pos] at hp
            exact validItems_startsWith year block.items p hp
          · match hnext : block.next with
            | none =>
                simp only [runShard, hcap, Bool.not_eq_true, if_neg, hnext] at hp
                exact validItems_startsWith year block.items p hp
            | some u =>
                simp only [runShard, hcap, Bool.not_eq_true, if_neg, hnext] at hp
                rcases List.mem_append.mp hp with hstr | hcont
                · exact validItems_startsWith year block.items p hstr
                · exact ih u none (pages + 1)
                    (processItems year idx block.items) p hcont

theorem searchGo_stream_valid (year : Nat) (market : String) (limit : Nat)
    (cap : Option Nat) (api : String → List (Option SearchBlock)) :
    ∀ (shards : List String) (acc : SearchOut),
      (∀ p ∈ acc.stream, strStartsWith p.2.release_date (toString year) = true) →
      ∀ p ∈ (searchGo year market limit cap api shards acc).stream,
        strStartsWith p.2.release_date (toString year) = true := by
  intro shards
  induction shards with
  | nil => intro acc hacc p hp; exact hacc p hp
  | cons shard rest ih =>
      intro acc hacc p hp
      refine ih _ ?_ p hp
      intro q hq
      rcases List.mem_append.mp hq with hq1 | hq2
      · exact hacc q hq1
      · exact runShard_stream_valid year cap (api shard) searchBaseUrl
          (some (initSearchParams year shard market limit)) 0 acc.index q hq2

theorem searchGo_index_eq (year : Nat) (market : String) (limit : Nat)
    (cap : Option Nat) (api : String → List (Option SearchBlock)) :
    ∀ (shards : List String) (acc : SearchOut),
      acc.index = acc.stream.foldl insertAbsent [] →
      (searchGo year market limit cap api shards acc).index =
        (searchGo year market limit cap api shards acc).stream.foldl insertAbsent [] := by
  intro shards
  induction shards with
  | nil => intro acc hacc; exact hacc
  | cons shard rest ih =>
      intro acc hacc
      refine ih _ ?_
      simp only [List.foldl_append]
      rw [← hacc]
      exact runShard_index_eq year cap (api shard) searchBaseUrl
        (some (initSearchParams year shard market limit)) 0 acc.index

/-- C4: every record in the index returned by `search_albums_by_year` has
a `release_date` that literally starts with the decimal string of the
requested year, whatever near-match items the endpoint returned. -/
theorem search_post_filter (year : Nat) (market : String) (limit : Nat)
    (shards : List String) (cap : Option Nat)
    (api : String → List (Option SearchBlock)) :
    ∀ p ∈ (search_albums_by_year year market limit shards cap api).index,
      strStartsWith p.2.release_date (toString year) = true := by
  intro p hp
  unfold search_albums_by_year at hp
  rw [searchGo_index_eq year market limit cap api shards ⟨[], [], []⟩ rfl] at hp
  rcases foldl_insertAbsent_mem _ [] p hp with hnil | hstream
  · simp at hnil
  · exact searchGo_stream_valid year market limit cap api shards ⟨[], [], []⟩
      (by intro q hq; simp at hq) p hstream

/-- A toy search endpoint: one page per shard, one 2023 album `alb1`, no
`next` cursor. -/
def toySearchApi : String → List (Option SearchBlock) :=
  fun _ => [some ⟨[⟨some "alb1", some "Nome", some "album", some "2023-03-01", []⟩], none⟩]

theorem search_post_filter_witness :
    (("alb1", (⟨"alb1", some "Nome", some "album", "2023-03-01", []⟩ : AlbumPayload)) ∈
      (search_albums_by_year 2023 "BR" 50 ["a"] none toySearchApi).index) ∧
    (strStartsWith (⟨"alb1", some "Nome", some "album", "2023-03-01", []⟩ : AlbumPayload).release_date
      (toString 2023) = true) := by
  constructor
  · decide
  · exact search_post_filter 2023 "BR" 50 ["a"] none toySearchApi
      ("alb1", ⟨"alb1", some "Nome", some "album", "2023-03-01", []⟩) (by decide)

theorem runShard_trace_le (year : Nat) (k : Nat) (cap_pos : 0 < k) :
    ∀ (resps : List (Option SearchBlock)) url params pages idx, pages < k →
      (runShard year (some k) resps url params pages idx).trace.length + pages ≤ k := by
  intro resps
  induction resps with
  | nil => intro url params pages idx hlt; simp [runShard]; omega
  | cons resp rest ih =>
      intro url params pages idx hlt
      match resp with
      | none => simp [runShard]; omega
      | some block =>
          by_cases hcap : capHit (some k) (pages + 1)
          · simp only [runShard, hcap, if_pos]
            simp; omega
          · have hlt' : pages + 1 < k := by
              unfold capHit at hcap
              rcases Nat.lt_or_ge (pages + 1) k with h | h
              · exact h
              · exfalso
                apply hcap
                simp [Nat.ne_of_gt cap_pos, h]
            match hnext : block.next with
            | none =>
                simp only [runShard, hcap, Bool.not_eq_true, if_neg, hnext]
                simp; omega
            | some u =>
                simp only [runShard, hcap, Bool.not_eq_true, if_neg, hnext]
                have := ih u none (pages + 1) (processItems year idx block.items) hlt'
                simp only [List.length_cons]
                omega

theorem searchGo_trace_le (year : Nat) (market : String) (limit : Nat)
    (k : Nat) (api : String → List (Option SearchBlock)) (cap_pos : 0 < k) :
    ∀ (shards : List String) (acc : SearchOut),
      (searchGo year market limit (some k) api shards acc).trace.length ≤
        acc.trace.length + shards.length * k := by
  intro shards
  induction shards with
  | nil => intro acc; simp [searchGo]
  | cons shard rest ih =>
      intro acc
      have hs := runShard_trace_le year k cap_pos (api shard) searchBaseUrl
        (some (initSearchParams year shard market limit)) 0 acc.index cap_pos
      have hrec := ih ⟨(runShard year (some k) (api shard) searchBaseUrl
          (some (initSearchParams year shard market limit)) 0 acc.index).index,
        acc.trace ++ (runShard year (some k) (api shard) searchBaseUrl
          (some (initSearchParams year shard market limit)) 0 acc.index).trace,
        acc.stream ++ (runShard year (some k) (api shard) searchBaseUrl
          (some (initSearchParams year shard market limit)) 0 acc.index).stream⟩
      simp only [searchGo]
      refine le_trans hrec ?_
      simp only [List.length_append, List.length_cons]
      have : (runShard year (some k) (api shard) searchBaseUrl
          (some (initSearchParams year shard market limit)) 0 acc.index).trace.length ≤ k := by
        omega
      calc acc.trace.length + (runShard year (some k) (api shard) searchBaseUrl
              (some (initSearchParams year shard market limit)) 0 acc.index).trace.length
              + rest.length * k
          ≤ acc.trace.length + k + rest.length * k := by omega
        _ = acc.trace.length + (shard :: rest).length * k := by
              simp [List.length_cons]; ring

/-- C5: with a shard alphabet of size `N = shards.length` and a positive
page cap `k`, the sharded search issues at most `N * k` page-fetch
requests in total, and each single shard loop issues at most `k`, however
many `next` cursors the endpoint supplies. -/
theorem search_page_fetch_bound (year : Nat) (market : String) (limit : Nat)
    (shards : List String) (k : Nat) (api : String → List (Option SearchBlock))
    (cap_pos : 0 < k) :
    ((search_albums_by_year year market limit shards (some k) api).trace.length ≤
      shards.length * k) ∧
    ∀ (resps : List (Option SearchBlock)) url params idx,
      (runShard year (some k) resps url params 0 idx).trace.length ≤ k := by
  constructor
  · have := searchGo_trace_le year market limit k api cap_pos shards ⟨[], [], []⟩
    simpa [search_albums_by_year] using this
  · intro resps url params idx
    have := runShard_trace_le year k cap_pos resps url params 0 idx cap_pos
    omega

/-- A search endpoint that always offers another page (an endless `next`
chain), to exercise the cap. -/
def endlessSearchApi : String → List (Option SearchBlock) :=
  fun _ => List.replicate 10 (some ⟨[], some "more"⟩)

theorem search_page_fetch_bound_witness :
    0 < 2 ∧
    ((search_albums_by_year 2023 "BR" 50 ["a", "b"] (some 2) endlessSearchApi).trace.length ≤
      ["a", "b"].length * 2) ∧
    (runShard 2023 (some 2) (endlessSearchApi "a") searchBaseUrl none 0 []).trace.length ≤ 2 :=
  ⟨by decide,
    (search_page_fetch_bound 2023 "BR" 50 ["a", "b"] 2 endlessSearchApi (by decide)).1,
    (search_page_fetch_bound 2023 "BR" 50 ["a", "b"] 2 endlessSearchApi
      (by decide)).2 (endlessSearchApi "a") searchBaseUrl none []⟩

/-- C6: dedup in the searcher is first-occurrence-wins across shards and
pages: the index has pairwise-distinct album ids, and looking an id up in
it yields exactly the payload of the first surviving occurrence of that id
in the stream of processed items taken in shard-then-page-then-position
order (so later occurrences neither add an entry nor overwrite). -/
theorem search_dedup_first_wins (year : Nat) (market : String) (limit : Nat)
    (shards : List String) (cap : Option Nat)
    (api : String → List (Option SearchBlock)) :
    (((search_albums_by_year year market limit shards cap api).index.map Prod.fst).Nodup) ∧
    ∀ k : String,
      (search_albums_by_year year market limit shards cap api).index.find?
          (fun q => q.1 == k) =
        (search_albums_by_year year market limit shards cap api).stream.find?
          (fun p => p.1 == k) := by
  constructor
  · unfold search_albums_by_year
    rw [searchGo_index_eq year market limit cap api shards ⟨[], [], []⟩ rfl]
    exact foldl_insertAbsent_nodup _ [] (by simp)
  · intro k
    unfold search_albums_by_year
    rw [searchGo_index_eq year market limit cap api shards ⟨[], [], []⟩ rfl]
    rw [foldl_insertAbsent_find? k _ []]
    simp

/-! ## `fetch_album_tracks` (src/API_spotify_tracks_V2.py lines 223-237)

The `/v1/albums/{id}/tracks` walker.  `pages` supplies the endpoint's
successive responses; a falsy `r.json()` is modelled as a page with no
items and no `next`. -/

/-- A track item of an album-tracks response (only the fields read). -/
structure TrackObj where
  id : Option String
  name : Option String
  track_number : Option Int
  disc_number : Option Int
  duration_ms : Option Int
  explicit : Option Bool
  artists : List (Option ArtistRef)
  spotify_url : Option String
deriving Repr, DecidableEq

/-- One page of an album-tracks response. -/
structure TracksPage where
  items : List TrackObj
  next : Option String
deriving Repr, DecidableEq

def albumTracksUrl (album_id : String) : String :=
  "https://api.spotify.com/v1/albums/" ++ album_id ++ "/tracks"

def initTracksParams (market : String) : List (String × String) :=
  [("limit", "50"), ("market", market)]

/-- The `while next_url` loop of `fetch_album_tracks`: extend the track
list with each page's items, follow the `next` cursor with `params=None`. -/
def walkTracks : List TracksPage → String → Option (List (String × String)) →
    List TrackObj × List Request
  | [], _, _ => ([], [])
  | page :: rest, url, params =>
      let req : Request := ⟨url, params⟩
      match page.next with
      | none => (page.items, [req])
      | some u =>
          let cont := walkTracks rest u none
          (page.items ++ cont.1, req :: cont.2)

/-- `fetch_album_tracks(tok, album_id, market)` with the endpoint
abstracted into its page list. -/
def fetch_album_tracks (pages : List TracksPage) (album_id market : String) :
    List TrackObj × List Request :=
  walkTracks pages (albumTracksUrl album_id) (some (initTracksParams market))

theorem runShard_trace_head (year : Nat) (cap : Option Nat) :
    ∀ (resps : List (Option SearchBlock)) url params pages idx r,
      (runShard year cap resps url params pages idx).trace.get? 0 = some r →
      r = ⟨url, params⟩ := by
  intro resps url params pages idx r hr
  match resps with
  | [] => simp [runShard] at hr
  | resp :: rest =>
      match resp with
      | none =>
          simp only [runShard, List.get?] at hr
          exact ((Option.some.injEq _ _).mp hr).symm
      | some block =>
          by_cases hcap : capHit cap (pages + 1)
          · simp only [runShard, hcap, if_pos, List.get?] at hr
            exact ((Option.some.injEq _ _).mp hr).symm
          · match hnext : block.next with
            | none =>
                simp only [runShard, hcap, Bool.not_eq_true, if_neg, hnext,
                  List.get?] at hr
                exact ((Option.some.injEq _ _).mp hr).symm
            | some u =>
                simp only [runShard, hcap, Bool.not_eq_true, if_neg, hnext,
                  List.get?] at hr
                exact ((Option.some.injEq _ _).mp hr).symm

theorem runShard_trace_succ (year : Nat) (cap : Option Nat) :
    ∀ (resps : List (Option SearchBlock)) url params pages idx j r,
      (runShard year cap resps url params pages idx).trace.get? (j + 1) = some r →
      r.params = none ∧
        ∃ b, resps.get? j = some (some b) ∧ b.next = some r.url := by
  intro resps
  induction resps with
  | nil => intro url params pages idx j r hr; simp [runShard] at hr
  | cons resp rest ih =>
      intro url params pages idx j r hr
      match resp with
      | none => simp [runShard] at hr
      | some block =>
          by_cases hcap : capHit cap (pages + 1)
          · simp only [runShard, hcap, if_pos, List.get?] at hr
            simp at hr
          · match hnext : block.next with
            | none =>
                simp only [runShard, hcap, Bool.not_eq_true, if_neg, hnext] at hr
                simp at hr
            | some u =>
                simp only [runShard, hcap, Bool.not_eq_true, if_neg, hnext] at hr
                match j with
                | 0 =>
                    have hr0 : (runShard year cap rest u none (pages + 1)
                        (processItems year idx block.items)).trace.get? 0 = some r := by
                      simpa using hr
                    have := runShard_trace_head year cap rest u none (pages + 1)
                      (processItems year idx block.items) r hr0
                    subst this
                    exact ⟨rfl, block, by simp, by simp [hnext]⟩
                | j' + 1 =>
                    have hr' : (runShard year cap rest u none (pages + 1)
                        (processItems year idx block.items)).trace.get? (j' + 1) = some r := by
                      simpa using hr
                    rcases ih u none (pages + 1) (processItems year idx block.items)
                      j' r hr' with ⟨hp, b, hb, hbn⟩
                    exact ⟨hp, b, by simpa using hb, hbn⟩

theorem walkTracks_trace_head :
    ∀ (pages : List TracksPage) url params r,
      (walkTracks pages url params).2.get? 0 = some r → r = ⟨url, params⟩ := by
  intro pages url params r hr
  match pages with
  | [] => simp [walkTracks] at hr
  | page :: rest =>
      match hnext : page.next with
      | none =>
          simp only [walkTracks, hnext, List.get?] at hr
          exact ((Option.some.injEq _ _).mp hr).symm
      | some u =>
          simp only [walkTracks, hnext, List.get?] at hr
          exact ((Option.some.injEq _ _).mp hr).symm

theorem walkTracks_trace_succ :
    ∀ (pages : List TracksPage) url params j r,
      (walkTracks pages url params).2.get? (j + 1) = some r →
      r.params = none ∧
        ∃ page, pages.get? j = some page ∧ page.next = some r.url := by
  intro pages
  induction pages with
  | nil => intro url params j r hr; simp [walkTracks] at hr
  | cons page rest ih =>
      intro url params j r hr
      match hnext : page.next with
      | none =>
          simp only [walkTracks, hnext] at hr
          simp at hr
      | some u =>
          simp only [walkTracks, hnext] at hr
          match j with
          | 0 =>
              have hr0 : (walkTracks rest u none).2.get? 0 = some r := by
                simpa using hr
              have := walkTracks_trace_head rest u none r hr0
              subst this
              exact ⟨rfl, page, by simp, by simp [hnext]⟩
          | j' + 1 =>
              have hr' : (walkTracks rest u none).2.get? (j' + 1) = some r := by
                simpa using hr
              rcases ih u none j' r hr' with ⟨hp, pg, hpg, hpn⟩
              exact ⟨hp, pg, by simpa using hpg, hpn⟩

/-- C9: in both pagination loops, the explicit query parameters ride only
on the first request (whose url is the endpoint's base url), and every
later request of the same loop carries `params = none` and exactly the
`next` url supplied by the API's preceding response. -/
theorem pagination_cursor_invariant (year : Nat) (cap : Option Nat)
    (resps : List (Option SearchBlock)) (p₀ : List (String × String))
    (idx : AlbumIndex) (pages : List TracksPage) (album_id market : String) :
    (∀ r, (runShard year cap resps searchBaseUrl (some p₀) 0 idx).trace.get? 0 = some r →
      r = ⟨searchBaseUrl, some p₀⟩) ∧
    (∀ j r, (runShard year cap resps searchBaseUrl (some p₀) 0 idx).trace.get? (j + 1) = some r →
      r.params = none ∧ ∃ b, resps.get? j = some (some b) ∧ b.next = some r.url) ∧
    (∀ r, (fetch_album_tracks pages album_id market).2.get? 0 = some r →
      r = ⟨albumTracksUrl album_id, some (initTracksParams market)⟩) ∧
    (∀ j r, (fetch_album_tracks pages album_id market).2.get? (j + 1) = some r →
      r.params = none ∧ ∃ page, pages.get? j = some page ∧ page.next = some r.url) := by
  refine ⟨?_, ?_, ?_, ?_⟩
  · intro r hr
    exact runShard_trace_head year cap resps searchBaseUrl (some p₀) 0 idx r hr
  · intro j r hr
    exact runShard_trace_succ year cap resps searchBaseUrl (some p₀) 0 idx j r hr
  · intro r hr
    exact walkTracks_trace_head pages (albumTracksUrl album_id)
      (some (initTracksParams market)) r hr
  · intro j r hr
    exact walkTracks_trace_succ pages (albumTracksUrl album_id)
      (some (initTracksParams market)) j r hr

/-- A two-page search-response chain followed by a two-page tracks chain,
with explicit `next` urls. -/
def twoPageResps : List (Option SearchBlock) :=
  [some ⟨[], some "search-page-2"⟩, some ⟨[], none⟩]

def twoTrackPages : List TracksPage :=
  [⟨[], some "tracks-page-2"⟩, ⟨[], none⟩]

theorem pagination_cursor_invariant_witness :
    ((⟨searchBaseUrl, some (initSearchParams 2023 "a" "BR" 50)⟩ : Request) =
      ⟨searchBaseUrl, some (initSearchParams 2023 "a" "BR" 50)⟩) ∧
    ((⟨"search-page-2", none⟩ : Request).params = none ∧
      ∃ b, twoPageResps.get? 0 = some (some b) ∧ b.next = some "search-page-2") ∧
    ((⟨"tracks-page-2", none⟩ : Request).params = none ∧
      ∃ page, twoTrackPages.get? 0 = some page ∧ page.next = some "tracks-page-2") := by
  have h := pagination_cursor_invariant 2023 none twoPageResps
    (initSearchParams 2023 "a" "BR" 50) [] twoTrackPages "alb1" "BR"
  refine ⟨?_, ?_, ?_⟩
  · exact h.1 ⟨searchBaseUrl, some (initSearchParams 2023 "a" "BR" 50)⟩ (by decide)
  · exact h.2.1 0 ⟨"search-page-2", none⟩ (by decide)
  · exact h.2.2.2 0 ⟨"tracks-page-2", none⟩ (by decide)

/-! ## `collect_year_tracks` (src/API_spotify_tracks_V2.py lines 241-318)
and the per-year step of `main` (lines 355-379)

The orchestrator is modelled end to end: search for the year's albums,
walk each album's tracks, flatten into rows, `drop_duplicates` by
`track_id` (pandas keeps the first occurrence; `NaN` ids are equal for
dedup purposes, matching `none = none` here), then attach the enrichment
columns.  pandas column assignment `df["col"] = list` aligns the list
with the rows positionally; since the lists are built by iterating the
rows in order, the columns are modelled as `df.map (cell function)`. -/

/-- `[x for x in xs if x]` on optional strings. -/
def truthyStrings (xs : List (Option String)) : List String :=
  xs.filterMap (fun o => o.bind (fun s => if s = "" then none else some s))

/-- One flattened row of the result DataFrame (pre-enrichment columns). -/
structure TrackRow where
  year : Nat
  market : String
  album_id : String
  album_name : Option String
  album_type : Option String
  release_date : String
  track_id : Option String
  track_name : Option String
  track_number : Option Int
  disc_number : Option Int
  duration_ms : Option Int
  explicit : Option Bool
  artists : String
  artist_ids : String
  spotify_url : Option String
deriving Repr, DecidableEq

/-- The `rows.append({...})` dictionary for one track of one album. -/
def mkRow (year : Nat) (market : String) (album_id : String)
    (alb : AlbumPayload) (t : TrackObj) : TrackRow :=
  let artist_objs := t.artists.filterMap id
  { year := year, market := market, album_id := album_id,
    album_name := alb.album_name, album_type := alb.album_type,
    release_date := alb.release_date,
    track_id := t.id, track_name := t.name,
    track_number := t.track_number, disc_number := t.disc_number,
    duration_ms := t.duration_ms, explicit := t.explicit,
    artists := String.intercalate ", " (truthyStrings (artist_objs.map (·.name))),
    artist_ids := String.intercalate "," (truthyStrings (artist_objs.map (·.id))),
    spotify_url := t.spotify_url }

/-- The truthy artist ids of one track (`all_artist_ids.update(...)`). -/
def rowArtistIds (t : TrackObj) : List String :=
  truthyStrings ((t.artists.filterMap id).map (·.id))

/-- The double loop of `collect_year_tracks` that flattens every album's
tracks into rows and gathers every contributing artist id.  The Python
`all_artist_ids` is a `set`; it is modelled as the list of truthy ids in
encounter order (`fetch_artists_meta` deduplicates it again anyway). -/
def buildRows (year : Nat) (market : String) (index : AlbumIndex)
    (tracksOf : String → List TrackObj) : List TrackRow × List String :=
  index.foldl (fun acc kp =>
    (tracksOf kp.1).foldl (fun acc2 t =>
      (acc2.1 ++ [mkRow year market kp.1 kp.2 t], acc2.2 ++ rowArtistIds t)) acc)
    ([], [])

/-- One step of `drop_duplicates(subset=["track_id"])`: keep the row only
when no earlier kept row has the same `track_id`. -/
def dedupStep (acc : List TrackRow) (r : TrackRow) : List TrackRow :=
  if acc.any (fun r2 => r2.track_id == r.track_id) then acc else acc ++ [r]

/-- pandas `drop_duplicates(subset=["track_id"])` (keep="first"). -/
def dropDuplicatesByTrackId (rows : List TrackRow) : List TrackRow :=
  rows.foldl dedupStep []

/-- Python `x.strip()` (whitespace at both ends). -/
def pyStrip (s : String) : String :=
  ⟨((s.toList.dropWhile Char.isWhitespace).reverse.dropWhile Char.isWhitespace).reverse⟩

/-- `[x.strip() for x in ids_csv.split(",") if x.strip()]`. -/
def pyCsvParts (s : String) : List String :=
  ((s.toList.splitOn ',').map (fun cs => pyStrip ⟨cs⟩)).filter (fun x => x ≠ "")

/-- The three artist-enrichment cells attached to one row (`NaN` from
`pd.to_numeric(None, errors="coerce")` is `none`). -/
structure PrimCols where
  primary_artist_id : Option String
  followers : Option Int
  genres : List String
  popularity : Option Int
deriving Repr, DecidableEq

/-- One iteration of the `for ids_csv in df["artist_ids"]` loop:
`p = parts[0] if parts else None; m = meta.get(p, {}) if p else {}` and
the three `m.get(...)` reads (an absent key yields the empty dict, whose
`get`s yield `None`/`[]`). -/
def enrichArtistRow (meta : List (String × ArtistMeta)) (r : TrackRow) : PrimCols :=
  let p := (pyCsvParts r.artist_ids).head?
  let m : Option ArtistMeta := p.bind (fun pid => lookupKey meta pid)
  { primary_artist_id := p,
    followers := m.bind (·.followers),
    genres := (m.map (·.genres)).getD [],
    popularity := m.bind (·.popularity) }

/-- `df["primary_artist_*"] = ...` column block. -/
def enrichArtistsStep (meta : List (String × ArtistMeta)) (df : List TrackRow) :
    List PrimCols :=
  df.map (enrichArtistRow meta)

/-- One cell of `df["track_popularity"] = df["track_id"].map(pop_map)`:
`none` is the `NaN` a missing key (or `NaN` track id) produces, and
`some v` the dict value (itself an optional popularity). -/
def enrichPopCell (popMap : List (String × Option Int)) (r : TrackRow) :
    Option (Option Int) :=
  r.track_id.bind (fun tid => lookupKey popMap tid)

def enrichPopStep (popMap : List (String × Option Int)) (df : List TrackRow) :
    List (Option (Option Int)) :=
  df.map (enrichPopCell popMap)

/-- The final `if not df.empty` type coercions: `duration_ms` is already
numeric-or-`none` here, and `explicit` gets `fillna(False)`. -/
def coerceTypes (df : List TrackRow) : List TrackRow :=
  if df.isEmpty then df
  else df.map (fun r => { r with explicit := some (r.explicit.getD false) })

/-- The result of `collect_year_tracks`: rows plus the optional
positionally-aligned enrichment column blocks. -/
structure CollectOut where
  rows : List TrackRow
  artistCols : Option (List PrimCols)
  popCols : Option (List (Option (Option Int)))
deriving Repr

/-- `collect_year_tracks(tok, year, market, shards, max_pages_per_shard,
enrich_artists, enrich_track_popularity)` with all four endpoints
abstracted. -/
def collect_year_tracks (year : Nat) (market : String) (limit : Nat)
    (shards : List String) (cap : Option Nat)
    (searchApi : String → List (Option SearchBlock))
    (tracksApi : String → List TracksPage)
    (artistsApi : List String → List (Option ArtistObjFull))
    (popApi : List String → List (Option TrackPopObj))
    (enrich_artists enrich_track_popularity : Bool) : CollectOut :=
  let sres := search_albums_by_year year market limit shards cap searchApi
  let br := buildRows year market sres.index
    (fun aid => (fetch_album_tracks (tracksApi aid) aid market).1)
  let df := dropDuplicatesByTrackId br.1
  let artistCols :=
    if enrich_artists && !df.isEmpty then
      some (enrichArtistsStep (fetch_artists_meta artistsApi br.2) df)
    else none
  let popCols :=
    if enrich_track_popularity && !df.isEmpty then
      some (enrichPopStep (fetch_tracks_popularity popApi (df.map (·.track_id))) df)
    else none
  { rows := coerceTypes df, artistCols := artistCols, popCols := popCols }

/-- The per-year tail of `main`: merge the markets' DataFrames (dedup by
`track_id` when there is at least one market, empty DataFrame otherwise). -/
def mergeYearRows (dfs : List (List TrackRow)) : List TrackRow :=
  if dfs.isEmpty then [] else dropDuplicatesByTrackId dfs.flatten

/-- The per-year step of `main`: the merged rows, and whether
`df_year.to_csv(outpath, ...)` runs (it is unconditional in the source). -/
def mainYearStep (dfs : List (List TrackRow)) : List TrackRow × Bool :=
  (mergeYearRows dfs, true)

theorem foldl_dedupStep_nodup :
    ∀ (rows acc : List TrackRow),
      ((acc.map (fun r => r.track_id)).Nodup) →
      (((rows.foldl dedupStep acc).map (fun r => r.track_id)).Nodup) := by
  intro rows
  induction rows with
  | nil => intro acc h; exact h
  | cons r rows ih =>
      intro acc h
      refine ih (dedupStep acc r) ?_
      unfold dedupStep
      by_cases hany : acc.any (fun r2 => r2.track_id == r.track_id)
      · rw [if_pos hany]; exact h
      · rw [if_neg hany, List.map_append]
        refine List.Nodup.append h (by simp) ?_
        intro a ha hb
        rcases List.mem_map.mp ha with ⟨q, hq, hqa⟩
        have hab : a = r.track_id := by simpa using hb
        apply hany
        refine List.any_eq_true.mpr ⟨q, hq, ?_⟩
        simp [hqa, hab]

theorem coerceTypes_track_ids (df : List TrackRow) :
    (coerceTypes df).map (fun r => r.track_id) = df.map (fun r => r.track_id) := by
  unfold coerceTypes
  by_cases h : df.isEmpty
  · rw [if_pos h]
  · rw [if_neg h, List.map_map]
    rfl

/-- C1: the snapshot never carries two records with the same track id:
`collect_year_tracks` returns rows with pairwise-distinct `track_id`s
(`drop_duplicates(subset=["track_id"])`), and the per-year merge of
`main` concatenates the per-market snapshots and re-deduplicates them by
`track_id`, so the per-period output also has pairwise-distinct
`track_id`s. -/
theorem snapshot_dedup_invariant (year : Nat) (market : String) (limit : Nat)
    (shards : List String) (cap : Option Nat)
    (searchApi : String → List (Option SearchBlock))
    (tracksApi : String → List TracksPage)
    (artistsApi : List String → List (Option ArtistObjFull))
    (popApi : List String → List (Option TrackPopObj))
    (ea ep : Bool) :
    (((collect_year_tracks year market limit shards cap searchApi tracksApi
        artistsApi popApi ea ep).rows.map (fun r => r.track_id)).Nodup) ∧
    (∀ dfs : List (List TrackRow),
      (((mainYearStep dfs).1.map (fun r => r.track_id)).Nodup)) ∧
    (∀ dfs : List (List TrackRow), dfs.isEmpty = false →
      (mainYearStep dfs).1 = dropDuplicatesByTrackId dfs.flatten) := by
  refine ⟨?_, ?_, ?_⟩
  · show ((coerceTypes (dropDuplicatesByTrackId _)).map (fun r => r.track_id)).Nodup
    rw [coerceTypes_track_ids]
    exact foldl_dedupStep_nodup _ [] (by simp)
  · intro dfs
    show ((mergeYearRows dfs).map (fun r => r.track_id)).Nodup
    unfold mergeYearRows
    by_cases h : dfs.isEmpty
    · rw [if_pos h]; simp
    · rw [if_neg h]
      exact foldl_dedupStep_nodup _ [] (by simp)
  · intro dfs h
    show mergeYearRows dfs = _
    unfold mergeYearRows
    rw [if_neg (by simp [h])]

/-- A toy tracks endpoint: every album has a single one-page track list. -/
def toyTracksPages : String → List TracksPage :=
  fun _ => [⟨[⟨some "t1", some "Track", some 1, some 1, some 200000, some false,
    [some ⟨some "Alice", some "a1"⟩], some "url"⟩], none⟩]

theorem snapshot_dedup_invariant_witness :
    (((collect_year_tracks 2023 "BR" 50 ["a"] none toySearchApi toyTracksPages
        toyArtistsApi toyTracksApi true true).rows.map (fun r => r.track_id)).Nodup) ∧
    (([[]] : List (List TrackRow)).isEmpty = false) ∧
    ((mainYearStep [[]]).1 = dropDuplicatesByTrackId ([[]] : List (List TrackRow)).flatten) := by
  have h := snapshot_dedup_invariant 2023 "BR" 50 ["a"] none toySearchApi
    toyTracksPages toyArtistsApi toyTracksApi true true
  exact ⟨h.1, by decide, h.2.2 [[]] (by decide)⟩

/-- C7: the enrichment step of `collect_year_tracks` (the loop over
`df["artist_ids"]` realised by `enrichArtistsStep`, and the
`df["track_id"].map(pop_map)` column realised by `enrichPopStep`) is
total — it attaches to every row whose primary artist id (resp. track id)
is absent from the resolver's mapping the defined defaults (`none`
followers, `[]` genres, `none` popularity, resp. a `none` cell), and to
every row whose id is present the resolved metadata. -/
theorem enrichment_default_policy
    (meta : List (String × ArtistMeta)) (popMap : List (String × Option Int))
    (df : List TrackRow) (i : Nat) (r : TrackRow)
    (hr : df.get? i = some r) :
    ((enrichArtistsStep meta df).get? i = some (enrichArtistRow meta r)) ∧
    ((pyCsvParts r.artist_ids).head? = none →
      enrichArtistRow meta r = ⟨none, none, [], none⟩) ∧
    (∀ p, (pyCsvParts r.artist_ids).head? = some p → lookupKey meta p = none →
      enrichArtistRow meta r = ⟨some p, none, [], none⟩) ∧
    (∀ p m, (pyCsvParts r.artist_ids).head? = some p → lookupKey meta p = some m →
      enrichArtistRow meta r = ⟨some p, m.followers, m.genres, m.popularity⟩) ∧
    ((enrichPopStep popMap df).get? i = some (enrichPopCell popMap r)) ∧
    (r.track_id = none → enrichPopCell popMap r = none) ∧
    (∀ tid, r.track_id = some tid → lookupKey popMap tid = none →
      enrichPopCell popMap r = none) ∧
    (∀ tid pv, r.track_id = some tid → lookupKey popMap tid = some pv →
      enrichPopCell popMap r = some pv) := by
  refine ⟨?_, ?_, ?_, ?_, ?_, ?_, ?_, ?_⟩
  · unfold enrichArtistsStep
    rw [List.get?_map, hr]
    rfl
  · intro hp
    unfold enrichArtistRow
    simp [hp]
  · intro p hp hm
    unfold enrichArtistRow
    simp [hp, hm]
  · intro p m hp hm
    unfold enrichArtistRow
    simp [hp, hm]
  · unfold enrichPopStep
    rw [List.get?_map, hr]
    rfl
  · intro ht
    unfold enrichPopCell
    simp [ht]
  · intro tid ht hm
    unfold enrichPopCell
    simp [ht, hm]
  · intro tid pv ht hm
    unfold enrichPopCell
    simp [ht, hm]

/-- Rows for the enrichment witness: one whose ids the resolvers know,
one whose ids they do not. -/
def wRowKnown : TrackRow :=
  { year := 2023, market := "BR", album_id := "alb1", album_name := none,
    album_type := none, release_date := "2023-01-01", track_id := some "t1",
    track_name := none, track_number := none, disc_number := none,
    duration_ms := none, explicit := none, artists := "Alice",
    artist_ids := "a1", spotify_url := none }

def wRowUnknown : TrackRow :=
  { year := 2023, market := "BR", album_id := "alb2", album_name := none,
    album_type := none, release_date := "2023-01-02", track_id := some "t9",
    track_name := none, track_number := none, disc_number := none,
    duration_ms := none, explicit := none, artists := "Zoe",
    artist_ids := "zz", spotify_url := none }

def wMeta : List (String × ArtistMeta) := [("a1", ⟨some 10, ["mpb"], some "Alice", some 7⟩)]

def wPop : List (String × Option Int) := [("t1", some 55)]

theorem enrichment_default_policy_witness :
    enrichArtistRow wMeta wRowKnown = ⟨some "a1", some 10, ["mpb"], some 7⟩ ∧
    enrichArtistRow wMeta wRowUnknown = ⟨some "zz", none, [], none⟩ ∧
    enrichPopCell wPop wRowKnown = some (some 55) ∧
    enrichPopCell wPop wRowUnknown = none := by
  have h0 := enrichment_default_policy wMeta wPop [wRowKnown, wRowUnknown] 0
    wRowKnown (by decide)
  have h1 := enrichment_default_policy wMeta wPop [wRowKnown, wRowUnknown] 1
    wRowUnknown (by decide)
  refine ⟨?_, ?_, ?_, ?_⟩
  · exact h0.2.2.2.1 "a1" ⟨some 10, ["mpb"], some "Alice", some 7⟩ (by decide) (by decide)
  · exact h1.2.2.1 "zz" (by decide) (by decide)
  · exact h0.2.2.2.2.2.2.2 "t1" (some 55) (by decide) (by decide)
  · exact h1.2.2.2.2.2.2.1 "t9" (by decide) (by decide)

/-- C8 counterexample: one market that produced zero records — the merged
per-year collection is empty, yet `main` still calls `to_csv` (the write
is unconditional in the source), so "a CSV file is created if and only if
the merged collection is non-empty" is false on the code. -/
theorem mainYearStep_empty_write_counterexample :
    ¬ (((mainYearStep [[]]).2 = true) ↔ (mainYearStep [[]]).1 ≠ []) := by
  decide

/-- C8 amended: `main` writes the per-year CSV for every processed year
unconditionally, whether or not the merged record collection is empty. -/
theorem mainYearStep_always_writes (dfs : List (List TrackRow)) :
    (mainYearStep dfs).2 = true := rfl

end Spotify
